import Mathlib

set_option linter.unusedVariables false

/-! Shallow embedding of `src/writer.rs` of the rust-pager repository:
styled characters, terminal size math, the reflow engine, the search engine,
the attribute-diffing writer, the key dispatch table and the viewport
controller (`UiContext`).  Fallible operations (Rust slice or vector indexing
out of range, and the explicit fail-fast branch of the highlight renderer)
return `Option`, with `none` modelling a runtime fault.  Machine integers
(`usize`) are modelled as `Nat`; the saturating and wrapping operations the
code uses are modelled explicitly against `USIZE_MAX`. -/

/-- Modelled from the spec: the colour type of a styled character (`RpChar`
lives in the repository's `shared.rs`, which is not under `src/`): the reset
colour, an indexed terminal colour, or an rgb colour. -/
inductive Color where
  | reset
  | ansi (n : Nat)
  | rgb (r g b : Nat)
deriving DecidableEq

/-- Modelled from the spec: the attribute bitmask of a styled character
(`crossterm::style::Attributes`).  The code reads or writes only the `Reset`
and `Reverse` bits; all remaining bits of the mask are kept abstractly in
`others`. -/
structure Attributes where
  reset : Bool
  reverse : Bool
  others : Nat
deriving DecidableEq

/-- The empty attribute set, `Attributes::default()`. -/
def Attributes.empty : Attributes := ⟨false, false, 0⟩

/-- Modelled from the spec: `RpChar` from the repository's `shared.rs` (not
under `src/`) — a glyph plus foreground colour, background colour and
attribute set (the source field `attribute`, renamed `attr` because
`attribute` is a reserved word here).  `chWidth` is the display width of the
glyph (`ch.width().unwrap_or(0)`: 0, 1 or 2 columns); it is carried as a
field because the Unicode width table is a function of the glyph alone. -/
structure RpChar where
  ch : Char
  chWidth : Nat
  foreground : Color
  background : Color
  attr : Attributes
deriving DecidableEq

/-- A plain character: width-1 glyph, reset colours, empty attributes. -/
def mkPlain (c : Char) : RpChar :=
  { ch := c, chWidth := 1, foreground := .reset, background := .reset,
    attr := Attributes.empty }

/-- A wide character: a width-2 glyph such as a CJK ideograph. -/
def mkWide (c : Char) : RpChar := { mkPlain c with chWidth := 2 }

/-- `line_width`: sum of the display widths of a line's characters. -/
def lineWidth (l : List RpChar) : Nat := (l.map (fun c => c.chWidth)).sum

/-- `line_line_size`: terminal rows consumed by one line — a blank line costs
one row, otherwise `ceil(width / column)` rows. -/
def lineLineSize (l : List RpChar) (column : Nat) : Nat :=
  let width := lineWidth l
  if width = 0 then 1
  else if width % column = 0 then width / column
  else width / column + 1

/-- Terminal dimensions as the controller stores them. -/
structure SizeContext where
  terminal_column : Nat
  terminal_line : Nat
deriving DecidableEq

/-- `SizeContext::resize` (the unix build: one terminal row is reserved, so
the stored line count is the physical row count minus one). -/
def SizeContext.resize (ctx : SizeContext) (terminal_column terminal_line : Nat) :
    SizeContext :=
  { terminal_column := terminal_column, terminal_line := terminal_line - 1 }

/-- Loop body of `calculate_real_size`: walk the lines (already reversed) and
accumulate consumed rows until `checked_sub` on the remaining budget fails. -/
def realSizeGo (column : Nat) (real left : Nat) : List (List RpChar) → Nat × Nat
  | [] => (real, left)
  | l :: rest =>
    let size := lineLineSize l column
    if size ≤ left then realSizeGo column (real + 1) (left - size) rest
    else (real, left)

/-- `SizeContext::calculate_real_size`: how many trailing lines fit the
viewport and how many rows are left over at the top. -/
def SizeContext.calculateRealSize (ctx : SizeContext) (lines : List (List RpChar)) :
    Nat × Nat :=
  realSizeGo ctx.terminal_column 0 ctx.terminal_line lines.reverse

/-- One iteration of the reflow loop per recursion step: the `takes`-th slice
of the source is `line[takes*(cols-1) ..< takes*(cols-1)+(cols-1)]`, realised
here as `take`/`drop` of the current suffix, with `k + 1 = cols - 1`.  `fuel`
bounds the iteration count (each iteration consumes at least one character,
so `line.length` iterations always suffice); the source loop terminates only
for `cols ≥ 2`, and every theorem about reflow below assumes that. -/
def reflowGo (k : Nat) : Nat → List RpChar → List (List RpChar)
  | _, [] => []
  | 0, _ :: _ => []
  | fuel + 1, c :: rest =>
    ((c :: rest).take (k + 1)) :: reflowGo k fuel ((c :: rest).drop (k + 1))

/-- Reflow of a single logical line (reflow stage of `UiContext::update`): a
line with fewer than one character yields itself as its only chunk; otherwise
successive chunks of `cols - 1` characters. -/
def reflowLine (cols : Nat) (line : List RpChar) : List (List RpChar) :=
  if line.length < 1 then [line]
  else reflowGo (cols - 2) line.length line

/-- The whole reflow stage: rebuild the reflowed lines and the
logical-to-reflowed association.  `acc` is the number of reflowed lines
already pushed, so a line's association entry is the consecutive run of
indices `acc, acc+1, …` (the source records `reflowed_lines.len() - 1` after
each push). -/
def reflowAll (cols : Nat) : List (List RpChar) → Nat → List (List RpChar) × List (List Nat)
  | [], _ => ([], [])
  | l :: rest, acc =>
    let chunks := reflowLine cols l
    let r := reflowAll cols rest (acc + chunks.length)
    (chunks ++ r.1, List.range' acc chunks.length :: r.2)

/-- Raw scan for one line (data-parallel step of `search`): the offsets `i`
at which the glyph sequence starting at `i` equals the needle
(`chars[i..].iter().take(char_count).map(|c| c.ch).eq(needle.chars())`). -/
def rawMatches (needle : List Char) (chars : List RpChar) : List Nat :=
  (List.range chars.length).filter
    (fun i => ((chars.drop i).take needle.length).map (fun c => c.ch) = needle)

/-- Dedup marking loop of `search`: over the enumerated match positions of
one line, record the index of any match whose start lies before
`previous_start + k`; the previous accepted start does not advance over a
dropped match. -/
def markRemovals (k : Nat) : Option Nat → List (Nat × Nat) → List Nat
  | _, [] => []
  | none, (_, s) :: rest => markRemovals k (some s) rest
  | some p, (i, s) :: rest =>
    if p + k > s then i :: markRemovals k (some p) rest
    else markRemovals k (some s) rest

/-- `for index in indexes_to_remove.iter().rev() { positions.remove(*index) }`:
erase the marked indices from the highest to the lowest. -/
def removeFromBehind (ps : List Nat) (idxs : List Nat) : List Nat :=
  idxs.reverse.foldl (fun l i => l.eraseIdx i) ps

/-- Overlap dedup for one line's raw matches (second pass of `search`). -/
def dedupMatches (k : Nat) (ps : List Nat) : List Nat :=
  removeFromBehind ps (markRemovals k none ps.enum)

/-- Reference recursion provably equal to the mark-then-remove pass: keep a
match only if it starts at or after the last kept start plus `k`. -/
def dedupKeep (k p : Nat) : List Nat → List Nat
  | [] => []
  | s :: rest => if p + k > s then dedupKeep k p rest else s :: dedupKeep k s rest

/-- Information content of the formatted prompt string (`update_prompt`). -/
inductive PromptRender where
  | empty
  | lineRange (first last total : Nat) (atEnd : Bool)
  | numberP (n : Nat)
  | searchP (buf : List Char)
deriving DecidableEq

/-- One queued terminal control item or glyph: the symbolic form of the bytes
the source queues into its output buffer. -/
inductive OutItem where
  | moveTo (x y : Nat)
  | moveToNextLine
  | clearLine
  | setAttributes (a : Attributes)
  | setForeground (c : Color)
  | setBackground (c : Color)
  | setNoReverse
  | setResetAttr
  | promptText (p : PromptRender)
  | glyph (c : Char)
deriving DecidableEq

/-- The attribute-diffing writer's per-frame state. -/
structure ChWriter where
  terminal_column : Nat
  wrap : Nat
  pos : Nat
  current_color : Color
  current_bgcolor : Color
  current_attribute : Attributes
deriving DecidableEq

/-- `ChWriter::new`. -/
def ChWriter.new (terminal_column : Nat) : ChWriter :=
  { terminal_column := terminal_column, wrap := 0, pos := 0,
    current_color := .reset, current_bgcolor := .reset,
    current_attribute := Attributes.empty }

/-- First block of `ChWriter::write`: emit `SetAttributes` only when the
character's attribute set differs from the tracked one; a change to a set
containing `Reset` also resets the tracked colours. -/
def ChWriter.writeAttr (w : ChWriter) (ch : RpChar) : ChWriter × List OutItem :=
  if w.current_attribute ≠ ch.attr then
    let w' := if ch.attr.reset
      then { w with current_color := .reset, current_bgcolor := .reset } else w
    ({ w' with current_attribute := ch.attr }, [.setAttributes ch.attr])
  else (w, [])

/-- Second block of `ChWriter::write`: foreground change only on difference. -/
def ChWriter.writeFg (w : ChWriter) (ch : RpChar) : ChWriter × List OutItem :=
  if ch.foreground ≠ w.current_color then
    ({ w with current_color := ch.foreground }, [.setForeground ch.foreground])
  else (w, [])

/-- Third block of `ChWriter::write`: background change only on difference. -/
def ChWriter.writeBg (w : ChWriter) (ch : RpChar) : ChWriter × List OutItem :=
  if ch.background ≠ w.current_bgcolor then
    ({ w with current_bgcolor := ch.background }, [.setBackground ch.background])
  else (w, [])

/-- Width bookkeeping block of `ChWriter::write`: wrap to the next terminal
row when the glyph no longer fits. -/
def ChWriter.advance (w : ChWriter) (ch : RpChar) : ChWriter × List OutItem :=
  let width := ch.chWidth
  if w.pos + width > w.terminal_column then
    ({ w with wrap := w.wrap + 1, pos := width }, [.moveToNextLine, .clearLine])
  else ({ w with pos := w.pos + width }, [])

/-- `ChWriter::write`: the four blocks in source order, then the glyph. -/
def ChWriter.write (w : ChWriter) (ch : RpChar) : ChWriter × List OutItem :=
  let a := w.writeAttr ch
  let f := a.1.writeFg ch
  let b := f.1.writeBg ch
  let m := b.1.advance ch
  (m.1, a.2 ++ f.2 ++ b.2 ++ m.2 ++ [.glyph ch.ch])

/-- `ChWriter::write_slice`: write every character through `write`. -/
def ChWriter.writeSlice (w : ChWriter) : List RpChar → ChWriter × List OutItem
  | [] => (w, [])
  | c :: cs =>
    let p := w.write c
    let q := p.1.writeSlice cs
    (q.1, p.2 ++ q.2)

/-- `ChWriter::write_slice_reverse`: force the `Reverse` attribute on every
written character, then cancel reverse and mark the tracked attribute state
not-reversed. -/
def ChWriter.writeSliceReverse (w : ChWriter) (chars : List RpChar) :
    ChWriter × List OutItem :=
  let p := w.writeSlice (chars.map (fun c => { c with attr := { c.attr with reverse := true } }))
  ({ p.1 with current_attribute := { p.1.current_attribute with reverse := false } },
   p.2 ++ [.setNoReverse])

/-- Number of attribute- or colour-setting escapes in an output trace. -/
def styleCount (l : List OutItem) : Nat :=
  (l.filter (fun i => match i with
    | .setAttributes _ => true
    | .setForeground _ => true
    | .setBackground _ => true
    | _ => false)).length

/-- Key modifier set (only the three bits the code tests). -/
structure Modifiers where
  shift : Bool
  control : Bool
  alt : Bool
deriving DecidableEq

/-- `KeyModifiers::NONE`. -/
def mNone : Modifiers := ⟨false, false, false⟩

/-- `KeyModifiers::SHIFT`. -/
def mShift : Modifiers := ⟨true, false, false⟩

/-- `KeyModifiers::CONTROL`. -/
def mControl : Modifiers := ⟨false, true, false⟩

/-- The key codes the dispatch table and the search prompt use. -/
inductive KeyCode where
  | char (c : Char)
  | enter | down | up | left | right | pageDown | pageUp
  | esc | home | endKey | backspace
deriving DecidableEq

/-- A key press: code plus exact modifier set (hash-map key). -/
structure KeyEvent where
  code : KeyCode
  modifiers : Modifiers
deriving DecidableEq

/-- `usize::MAX` on the 64-bit targets the pager builds for (2^64 − 1). -/
def USIZE_MAX : Nat := 18446744073709551615

/-- `usize::saturating_add`. -/
def satAdd (a b : Nat) : Nat := min (a + b) USIZE_MAX

/-- `usize::wrapping_mul`. -/
def wrapMul (a b : Nat) : Nat := (a * b) % (USIZE_MAX + 1)

/-- Scroll step sizes of the key behaviors. -/
inductive ScrollSize where
  | one | halfPage | page | toEnd
deriving DecidableEq

/-- `ScrollSize::calculate` (`End` yields `usize::MAX`). -/
def ScrollSize.calculate : ScrollSize → Nat → Nat
  | .one, _ => 1
  | .halfPage, terminal_line => terminal_line / 2
  | .page, terminal_line => terminal_line
  | .toEnd, _ => USIZE_MAX

/-- The behaviors a key can be bound to. -/
inductive KeyBehavior where
  | quit
  | down (s : ScrollSize)
  | up (s : ScrollSize)
  | searchNext
  | searchPrev
  | normalMode
  | number (n : Nat)
  | search
deriving DecidableEq

/-- The `dict.insert` calls of `default_keymap`, in source order (the two
`CONTROL + 'd'` entries both appear, half-page-down first and quit later). -/
def keymapInserts : List (KeyEvent × KeyBehavior) := [
  (⟨.enter, mNone⟩, .down .one),
  (⟨.down, mNone⟩, .down .one),
  (⟨.char 'j', mNone⟩, .down .one),
  (⟨.up, mNone⟩, .up .one),
  (⟨.char 'k', mNone⟩, .up .one),
  (⟨.char 'u', mNone⟩, .up .halfPage),
  (⟨.char 'd', mNone⟩, .down .halfPage),
  (⟨.left, mNone⟩, .up .halfPage),
  (⟨.right, mNone⟩, .down .halfPage),
  (⟨.char 'f', mNone⟩, .down .page),
  (⟨.char ' ', mNone⟩, .down .page),
  (⟨.char 'b', mNone⟩, .up .page),
  (⟨.pageDown, mNone⟩, .down .page),
  (⟨.pageUp, mNone⟩, .up .page),
  (⟨.esc, mNone⟩, .normalMode),
  (⟨.home, mNone⟩, .up .toEnd),
  (⟨.endKey, mNone⟩, .down .toEnd),
  (⟨.char 'g', mNone⟩, .up .toEnd),
  (⟨.char 'q', mNone⟩, .quit),
  (⟨.char '/', mNone⟩, .search),
  (⟨.char 'n', mNone⟩, .searchNext),
  (⟨.char '0', mNone⟩, .number 0),
  (⟨.char '1', mNone⟩, .number 1),
  (⟨.char '2', mNone⟩, .number 2),
  (⟨.char '3', mNone⟩, .number 3),
  (⟨.char '4', mNone⟩, .number 4),
  (⟨.char '5', mNone⟩, .number 5),
  (⟨.char '6', mNone⟩, .number 6),
  (⟨.char '7', mNone⟩, .number 7),
  (⟨.char '8', mNone⟩, .number 8),
  (⟨.char '9', mNone⟩, .number 9),
  (⟨.char 'G', mShift⟩, .down .toEnd),
  (⟨.char 'N', mShift⟩, .searchPrev),
  (⟨.char 'Q', mShift⟩, .quit),
  (⟨.char 'u', mControl⟩, .up .halfPage),
  (⟨.char 'd', mControl⟩, .down .halfPage),
  (⟨.char 'f', mControl⟩, .down .page),
  (⟨.char 'v', mControl⟩, .down .page),
  (⟨.char 'b', mControl⟩, .up .page),
  (⟨.char 'e', mControl⟩, .down .one),
  (⟨.char 'n', mControl⟩, .down .one),
  (⟨.char 'y', mControl⟩, .up .one),
  (⟨.char 'k', mControl⟩, .up .one),
  (⟨.char 'p', mControl⟩, .up .one),
  (⟨.char 'd', mControl⟩, .quit),
  (⟨.char 'c', mControl⟩, .quit)]

/-- Hash-map lookup after all the inserts ran: a later insert for the same
key overwrites an earlier one. -/
def defaultKeymap (k : KeyEvent) : Option KeyBehavior :=
  keymapInserts.foldl (fun acc p => if p.1 = k then some p.2 else acc) none

/-- The prompt/mode state machine (`PromptState`); the search buffer is the
needle's character sequence. -/
inductive PromptState where
  | normal
  | number (n : Nat)
  | search (buf : List Char)
deriving DecidableEq

/-- Input events as the loop consumes them. -/
inductive Event where
  | key (ke : KeyEvent)
  | mouseScrollUp
  | mouseScrollDown
  | resize (x y : Nat)
  | other
deriving DecidableEq

/-- The viewport controller state (`UiContext`), minus the process handles
(queue, tty, byte buffer): the byte buffer's content is returned as an
`OutItem` trace instead, and the key map is the global `defaultKeymap`. -/
structure UiContext where
  lines : List (List RpChar)
  reflowed_lines : List (List RpChar)
  reflowed_lines_associations : List (List Nat)
  search_positions : List (List Nat)
  reflowed_search_positions : List (List Nat)
  search_char_len : Nat
  scroll : Nat
  size_ctx : SizeContext
  prev_wrap : Nat
  need_redraw : Bool
  need_reflow : Bool
  prompt_outdated : Bool
  prompt_state : PromptState
  prompt : PromptRender
deriving DecidableEq

/-- `UiContext::new` after the initial `size_ctx.resize(x, y)`. -/
def initCtx (x y : Nat) : UiContext :=
  { lines := [], reflowed_lines := [], reflowed_lines_associations := [],
    search_positions := [], reflowed_search_positions := [],
    search_char_len := 0, scroll := 0,
    size_ctx := SizeContext.resize ⟨0, 0⟩ x y, prev_wrap := 0,
    need_redraw := true, need_reflow := true, prompt_outdated := true,
    prompt_state := .normal, prompt := .empty }

/-- `UiContext::max_scroll` (`saturating_sub` is `Nat` subtraction). -/
def UiContext.maxScroll (s : UiContext) : Nat :=
  s.reflowed_lines.length - (s.size_ctx.calculateRealSize s.reflowed_lines).1

/-- `UiContext::push_line`. -/
def UiContext.pushLine (s : UiContext) (line : List RpChar) : UiContext :=
  let s := if s.lines.length < s.size_ctx.terminal_line
    then { s with need_redraw := true } else s
  { s with prompt_outdated := true, lines := s.lines ++ [line] }

/-- `UiContext::goto_scroll`: clamp to `max_scroll` and mark dirty only on an
actual change. -/
def UiContext.gotoScroll (s : UiContext) (idx : Nat) : UiContext :=
  let new_scroll := min idx s.maxScroll
  if new_scroll ≠ s.scroll then
    { s with scroll := new_scroll, need_redraw := true, prompt_outdated := true }
  else s

/-- `UiContext::scroll_down`. -/
def UiContext.scrollDown (s : UiContext) (idx : Nat) : UiContext :=
  s.gotoScroll (satAdd s.scroll idx)

/-- `UiContext::scroll_up` (`saturating_sub` is `Nat` subtraction). -/
def UiContext.scrollUp (s : UiContext) (idx : Nat) : UiContext :=
  s.gotoScroll (s.scroll - idx)

/-- `UiContext::move_search`: find the next/previous reflowed line with a
non-empty match set, circularly from the current scroll, excluding the
current line on the first step.  The source slices
`reflowed_search_positions[scroll..]`, which faults when `scroll` exceeds the
array length (`none`). -/
def UiContext.moveSearch (s : UiContext) (forward : Bool) : Option UiContext :=
  if s.scroll ≤ s.reflowed_search_positions.length then
    let tail := s.reflowed_search_positions.drop s.scroll
    let next := (tail.enum.drop 1).map (fun p => (p.1 + s.scroll, p.2))
    let prev := (s.reflowed_search_positions.take s.scroll).enum
    let line :=
      if forward then (next ++ prev).find? (fun p => !p.2.isEmpty)
      else (prev.reverse ++ next.reverse).find? (fun p => !p.2.isEmpty)
    some (match line with
      | some p => s.gotoScroll p.1
      | none => s)
  else none

/-- One logical line's part of `reflow_search`: bucket its match starts by
chunk (`cut = start / (cols−1)`, `local = start % (cols−1)`), then store each
bucket at the reflowed index the association names.  Vector indexing out of
range (a stale association against new positions, or a stale reflowed array)
faults. -/
def reflowSearchOne (w1 : Nat) (assoc : List Nat) (positions : List Nat)
    (rsp : List (List Nat)) : Option (List (List Nat)) := do
  let newPos ← positions.foldlM
    (fun (np : List (List Nat)) position => do
      let cut := position / w1
      let idx := position % w1
      if cut < np.length then pure (np.set cut ((np.getD cut []) ++ [idx]))
      else none)
    (List.replicate assoc.length ([] : List Nat))
  newPos.enum.foldlM
    (fun (acc : List (List Nat)) pr => do
      let target := assoc.getD pr.1 0
      if target < acc.length then pure (acc.set target pr.2) else none)
    rsp

/-- `UiContext::reflow_search`: rebuild `reflowed_search_positions` (one
entry per reflowed line) from the logical search positions and the
association; a logical line with no association entry is skipped. -/
def UiContext.reflowSearch (s : UiContext) : Option UiContext := do
  let w1 := s.size_ctx.terminal_column - 1
  let final ← s.search_positions.enum.foldlM
    (fun (acc : List (List Nat)) pr =>
      match s.reflowed_lines_associations.get? pr.1 with
      | none => pure acc
      | some assoc => reflowSearchOne w1 assoc pr.2 acc)
    (List.replicate s.reflowed_lines.length ([] : List Nat))
  pure { s with reflowed_search_positions := final }

/-- `UiContext::search`: an empty needle only clears the logical positions
(and the stored needle length); a non-empty needle runs the raw scan, the
overlap dedup, the reflow remap, and then moves to the first match. -/
def UiContext.search (s : UiContext) (needle : List Char) : Option UiContext :=
  let s := if !s.search_positions.isEmpty
    then { s with need_redraw := true, search_positions := [] } else s
  let charCount := needle.length
  let s := { s with search_char_len := charCount }
  if charCount = 0 then some s
  else
    let s := { s with need_redraw := true }
    let raw := s.lines.map (fun chars => rawMatches needle chars)
    let s := { s with search_positions := raw.map (fun ps => dedupMatches charCount ps) }
    s.reflowSearch.bind (fun t => t.moveSearch true)

/-- `UiContext::update_prompt`: rebuild the prompt when `prompt_outdated`. -/
def UiContext.updatePrompt (s : UiContext) : UiContext :=
  if s.prompt_outdated then
    let pr : PromptRender :=
      match s.prompt_state with
      | .normal =>
        .lineRange (s.scroll + 1) (s.scroll + s.size_ctx.terminal_line - s.prev_wrap)
          s.reflowed_lines.length (s.scroll == s.maxScroll)
      | .number n => .numberP n
      | .search buf => .searchP buf
    { s with prompt := pr, prompt_outdated := false }
  else s

/-- `UiContext::write_prompt`: move to the status row, clear it, emit the
prompt text. -/
def UiContext.promptOut (s : UiContext) : List OutItem :=
  [.moveTo 0 s.size_ctx.terminal_line, .clearLine, .promptText s.prompt]

/-- Plain render loop of the redraw path (no active search): clear the row,
write the line, reset the writer column, move to the next row. -/
def renderPlain (w : ChWriter) : List (List RpChar) → ChWriter × List OutItem
  | [] => (w, [])
  | l :: rest =>
    let p := w.writeSlice l
    let w1 := { p.1 with pos := 0 }
    let q := renderPlain w1 rest
    (q.1, [OutItem.clearLine] ++ p.2 ++ [OutItem.moveToNextLine] ++ q.2)

/-- Result of the per-line highlight loop. -/
structure MatchRender where
  writer : ChWriter
  out : List OutItem
  prevPos : Nat
  overflow : Nat

/-- Highlight loop over one reflowed line's match positions: plain text up to
the match, the matched span in reverse video clipped at line end (recording
the overflow carried to the next line).  The source fails fast when a span's
start exceeds its clipped end, and slice indexing faults when positions are
inconsistent (`prev_pos > start`). -/
def renderMatches (k : Nat) (w : ChWriter) (line : List RpChar) :
    Nat → Nat → List Nat → Option MatchRender
  | prevPos, overflow, [] => some ⟨w, [], prevPos, overflow⟩
  | prevPos, overflow, p :: rest =>
    let stop0 := p + k
    let co : Nat × Nat :=
      if stop0 > line.length then (stop0 - line.length, line.length)
      else (overflow, stop0)
    if p > co.2 then none
    else if prevPos ≤ p then
      let o1 := w.writeSlice ((line.drop prevPos).take (p - prevPos))
      let o2 := o1.1.writeSliceReverse ((line.drop p).take (co.2 - p))
      match renderMatches k o2.1 line co.2 co.1 rest with
      | none => none
      | some mr => some ⟨mr.writer, o1.2 ++ o2.2 ++ mr.out, mr.prevPos, mr.overflow⟩
    else none

/-- Highlight render loop of the redraw path (active search): for each
visible line and its match set, paint any overflow carried from the previous
line in reverse, run the per-match loop, then the plain tail. -/
def renderSearchLoop (k : Nat) (w : ChWriter) (overflow : Nat) :
    List (List RpChar × List Nat) → Option (ChWriter × List OutItem)
  | [] => some (w, [])
  | (line, search) :: rest =>
    if overflow ≤ line.length then
      let pre : ChWriter × List OutItem × Nat × Nat :=
        if overflow > 0 then
          let p := w.writeSliceReverse (line.take overflow)
          (p.1, p.2, overflow, 0)
        else (w, [], 0, overflow)
      match renderMatches k pre.1 line pre.2.2.1 pre.2.2.2 search with
      | none => none
      | some mr =>
        if mr.prevPos ≤ line.length then
          let post := mr.writer.writeSlice (line.drop mr.prevPos)
          let w2 := { post.1 with pos := 0 }
          match renderSearchLoop k w2 mr.overflow rest with
          | none => none
          | some q =>
            some (q.1, [OutItem.clearLine] ++ pre.2.1 ++ mr.out ++ post.2
              ++ [OutItem.moveToNextLine] ++ q.2)
        else none
    else none

/-- Tick body `UiContext::update`: the reflow stage guarded by `need_reflow`,
then the full-redraw render path guarded by `need_redraw`, else the
prompt-only fast path guarded by `prompt_outdated`.  The redraw path slices
`reflowed_lines[scroll..]` (and, with a search active,
`reflowed_search_positions[scroll..end]`), which faults when `scroll` or
`end` exceeds the array's length. -/
def UiContext.update (s : UiContext) : Option (UiContext × List OutItem) :=
  let step1 : Option UiContext :=
    if s.need_reflow then
      let r := reflowAll s.size_ctx.terminal_column s.lines 0
      let s1 := { s with reflowed_lines := r.1, reflowed_lines_associations := r.2 }
      let s2 := if !s1.reflowed_search_positions.isEmpty then s1.reflowSearch else some s1
      s2.map (fun t => { t with need_reflow := false })
    else some s
  step1.bind (fun s =>
    if s.need_redraw then
      if s.scroll ≤ s.reflowed_lines.length then
        let w := ChWriter.new s.size_ctx.terminal_column
        let rm := s.size_ctx.calculateRealSize (s.reflowed_lines.drop s.scroll)
        let stop := s.scroll + rm.1
        let marginOut :=
          (List.replicate rm.2 [OutItem.clearLine, OutItem.moveToNextLine]).flatten
        if stop ≤ s.reflowed_lines.length then
          let visible := (s.reflowed_lines.drop s.scroll).take rm.1
          let body : Option (ChWriter × List OutItem) :=
            if s.reflowed_search_positions.isEmpty then
              some (renderPlain w visible)
            else if stop ≤ s.reflowed_search_positions.length then
              renderSearchLoop s.search_char_len w 0
                (visible.zip ((s.reflowed_search_positions.drop s.scroll).take rm.1))
            else none
          body.map (fun p =>
            let s := { s with prev_wrap := p.1.wrap }
            let s := s.updatePrompt
            ({ s with need_redraw := false },
             [OutItem.moveTo 0 0] ++ marginOut ++ p.2 ++ [OutItem.setResetAttr]
               ++ s.promptOut))
        else none
      else none
    else if s.prompt_outdated then
      let s := s.updatePrompt
      some (s, s.promptOut)
    else some (s, []))

/-- Key-dispatch arm of `handle_event`: look the key up in the table and run
its behavior.  `Up`/`Down` consume a pending numeric prefix via
`prompt_state.take()`; `Quit` returns `true`. -/
def UiContext.dispatchKey (s : UiContext) (ke : KeyEvent) : Option (UiContext × Bool) :=
  match defaultKeymap ke with
  | none => some (s, false)
  | some b =>
    match b with
    | .normalMode =>
      let s := { s with prompt_state := .normal }
      (s.search []).map (fun t => ({ t with prompt_outdated := true }, false))
    | .search =>
      some ({ s with prompt_state := .search [], prompt_outdated := true }, false)
    | .searchNext => (s.moveSearch true).map (fun t => (t, false))
    | .searchPrev => (s.moveSearch false).map (fun t => (t, false))
    | .number n =>
      match s.prompt_state with
      | .number pn =>
        some ({ s with prompt_state := .number (pn * 10 + n), prompt_outdated := true }, false)
      | _ => some ({ s with prompt_state := .number n, prompt_outdated := true }, false)
    | .up size =>
      let sz := size.calculate s.size_ctx.terminal_line
      let n := match s.prompt_state with | .number n => n | _ => 1
      let s := { s with prompt_state := .normal }
      some (s.scrollUp (wrapMul sz n), false)
    | .down size =>
      let sz := size.calculate s.size_ctx.terminal_line
      let n := match s.prompt_state with | .number n => n | _ => 1
      let s := { s with prompt_state := .normal }
      some (s.scrollDown (wrapMul sz n), false)
    | .quit => some (s, true)

/-- Key arm of `handle_event`: in search-input mode and without a
control/alt modifier, printable characters, backspace and enter are
intercepted before the dispatch table. -/
def UiContext.handleKey (s : UiContext) (ke : KeyEvent) : Option (UiContext × Bool) :=
  match s.prompt_state with
  | .search buf =>
    if !(ke.modifiers.control || ke.modifiers.alt) then
      match ke.code with
      | .char c =>
        some ({ s with prompt_state := .search (buf ++ [c]), prompt_outdated := true }, false)
      | .backspace =>
        let s := if buf.isEmpty then { s with prompt_state := .normal }
          else { s with prompt_state := .search buf.dropLast }
        some ({ s with prompt_outdated := true }, false)
      | .enter =>
        (UiContext.search { s with prompt_state := .search [] } buf).map
          (fun t => ({ t with prompt_state := .normal, prompt_outdated := true }, false))
      | _ => s.dispatchKey ke
    else s.dispatchKey ke
  | _ => s.dispatchKey ke

/-- `UiContext::handle_event`: mouse wheel scrolls only in normal mode, keys
go through `handleKey`, a resize refreshes the size context and marks
everything dirty; unknown events are ignored.  The returned `Bool` is the
quit signal. -/
def UiContext.handleEvent (s : UiContext) (e : Event) : Option (UiContext × Bool) :=
  match e with
  | .mouseScrollUp =>
    some (if s.prompt_state = .normal then s.scrollUp 1 else s, false)
  | .mouseScrollDown =>
    some (if s.prompt_state = .normal then s.scrollDown 1 else s, false)
  | .key ke => s.handleKey ke
  | .resize x y =>
    some ({ s with size_ctx := s.size_ctx.resize x y, need_reflow := true,
                   need_redraw := true, prompt_outdated := true }, false)
  | .other => some (s, false)

/-- One-character demo line "a". -/
def lineA : List RpChar := [mkPlain 'a']

/-- One-character demo line "b". -/
def lineB : List RpChar := [mkPlain 'b']

/-- One-character demo line "c". -/
def lineC : List RpChar := [mkPlain 'c']

/-- Demo line "aaaaaaaa" (8 characters). -/
def line8 : List RpChar := List.replicate 8 (mkPlain 'a')

/-- The spec's reflow scenario input: lines "abc", "abcabc", "". -/
def demoLines : List (List RpChar) :=
  [[mkPlain 'a', mkPlain 'b', mkPlain 'c'],
   [mkPlain 'a', mkPlain 'b', mkPlain 'c', mkPlain 'a', mkPlain 'b', mkPlain 'c'],
   []]

/-- A state that has committed a search with one match, logical and reflowed
(for the empty-needle behavior). -/
def exSearchState : UiContext :=
  { (initCtx 4 2) with
    search_positions := [[0]]
    reflowed_search_positions := [[0]]
    search_char_len := 1 }

/-- A state with two reflowed rows and a one-row viewport, so
`max_scroll = 1` (for the scroll-clamp witness). -/
def exScrollState : UiContext :=
  { (initCtx 3 2) with reflowed_lines := [lineA, lineB], need_reflow := false }

/-- A fresh state whose initial reflow flag has been consumed (for the
redraw-totality witness). -/
def exRedrawState : UiContext := { (initCtx 2 2) with need_reflow := false }

/-- Reachable state for the `move_search` fault: three pushed lines, one
update tick, one scroll-down keystroke — `scroll = 1` while
`reflowed_search_positions` is still empty because no search was ever
committed. -/
def c9state : Option UiContext :=
  ((((initCtx 3 2).pushLine lineA).pushLine lineB).pushLine lineC).update.bind
    (fun p => (p.1.handleEvent (Event.key ⟨.char 'j', mNone⟩)).map (fun q => q.1))

/-- Reachable state for the redraw fault: one 8-character line on a width-2
terminal (8 reflowed rows), scrolled to the end (`scroll = 7`), then resized
to width 9 so the pending reflow will shrink `reflowed_lines` to 1 row. -/
def c10state : Option UiContext :=
  ((initCtx 2 2).pushLine line8).update.bind (fun p =>
    (p.1.handleEvent (Event.key ⟨.char 'G', mShift⟩)).bind (fun q =>
      (q.1.handleEvent (Event.resize 9 2)).map (fun r => r.1)))

theorem reflowGo_nil (k fuel : Nat) : reflowGo k fuel [] = [] := by
  cases fuel <;> rfl

theorem reflowGo_flatten (k : Nat) :
    ∀ (fuel : Nat) (l : List RpChar), l.length ≤ fuel →
      (reflowGo k fuel l).flatten = l := by
  intro fuel
  induction fuel with
  | zero =>
    intro l hl
    cases l with
    | nil => rfl
    | cons c rest => simp at hl
  | succ f ih =>
    intro l hl
    cases l with
    | nil => rfl
    | cons c rest =>
      have hd : ((c :: rest).drop (k + 1)).length ≤ f := by
        rw [List.length_drop]
        simp only [List.length_cons] at hl ⊢
        omega
      simp only [reflowGo, List.flatten_cons, ih _ hd, List.take_append_drop]

theorem reflowGo_chunk_length (k : Nat) :
    ∀ (fuel : Nat) (l : List RpChar), ∀ c ∈ reflowGo k fuel l, c.length ≤ k + 1 := by
  intro fuel
  induction fuel with
  | zero =>
    intro l c hc
    cases l <;> simp [reflowGo] at hc
  | succ f ih =>
    intro l c hc
    cases l with
    | nil => simp [reflowGo] at hc
    | cons x rest =>
      simp only [reflowGo, List.mem_cons] at hc
      rcases hc with h | h
      · subst h
        rw [List.length_take]
        omega
      · exact ih _ _ h

theorem reflowGo_sublist (k : Nat) :
    ∀ (fuel : Nat) (l : List RpChar), ∀ c ∈ reflowGo k fuel l, c.Sublist l := by
  intro fuel
  induction fuel with
  | zero =>
    intro l c hc
    cases l <;> simp [reflowGo] at hc
  | succ f ih =>
    intro l c hc
    cases l with
    | nil => simp [reflowGo] at hc
    | cons x rest =>
      simp only [reflowGo, List.mem_cons] at hc
      rcases hc with h | h
      · subst h
        exact List.take_sublist _ _
      · exact (ih _ _ h).trans (List.drop_sublist _ _)

theorem reflowGo_nonfinal (k : Nat) :
    ∀ (fuel : Nat) (l : List RpChar), l.length ≤ fuel →
      ∀ i, i + 1 < (reflowGo k fuel l).length →
        ((reflowGo k fuel l).getD i []).length = k + 1 := by
  intro fuel
  induction fuel with
  | zero =>
    intro l hl i hi
    cases l with
    | nil => simp [reflowGo_nil] at hi
    | cons c rest => simp at hl
  | succ f ih =>
    intro l hl i hi
    cases l with
    | nil => simp [reflowGo_nil] at hi
    | cons c rest =>
      have hd : ((c :: rest).drop (k + 1)).length ≤ f := by
        rw [List.length_drop]
        simp only [List.length_cons] at hl ⊢
        omega
      cases i with
      | zero =>
        simp only [reflowGo, List.length_cons] at hi
        have htail : reflowGo k f ((c :: rest).drop (k + 1)) ≠ [] := by
          intro h
          rw [h] at hi
          simp at hi
        have hdrop : (c :: rest).drop (k + 1) ≠ [] := by
          intro h
          rw [h, reflowGo_nil] at htail
          exact htail rfl
        have hlen : k + 1 < (c :: rest).length := by
          by_contra h
          exact hdrop (List.drop_eq_nil_of_le (by omega))
        simp only [reflowGo, List.getD_cons_zero]
        rw [List.length_take]
        omega
      | succ j =>
        simp only [reflowGo, List.length_cons] at hi
        simp only [reflowGo, List.getD_cons_succ]
        exact ih _ hd j (by omega)

theorem lineWidth_le_length (l : List RpChar) (h : ∀ c ∈ l, c.chWidth ≤ 1) :
    lineWidth l ≤ l.length := by
  induction l with
  | nil => simp [lineWidth]
  | cons c t ih =>
    have h1 : c.chWidth ≤ 1 := h c (by simp)
    have h2 : lineWidth t ≤ t.length := ih (fun x hx => h x (by simp [hx]))
    simp only [lineWidth, List.map_cons, List.sum_cons, List.length_cons] at *
    omega

/-- Claim C3 counterexample: on a width-2 terminal a logical line holding one
double-width glyph reflows to a single chunk of display width 2, exceeding
`columns − 1 = 1` — the reflow slices by character count, not display
width. -/
theorem c3_cex_displaywidth :
    ¬ (∀ chunk ∈ reflowLine 2 [mkWide 'W'], lineWidth chunk ≤ 2 - 1) := by
  decide

/-- Claim C3 (amended): for every logical line and column width ≥ 2,
concatenating the reflowed chunks reproduces the line exactly; every chunk's
character count is at most `columns − 1` and every chunk but the final one
has exactly `columns − 1` characters; a zero-length line produces exactly one
zero-length chunk; and the original display-width bound holds whenever every
glyph is at most one column wide. -/
theorem c3_reflow_correct (cols : Nat) (line : List RpChar) (h : 2 ≤ cols) :
    (reflowLine cols line).flatten = line
    ∧ (∀ chunk ∈ reflowLine cols line, chunk.length ≤ cols - 1)
    ∧ (∀ i, i + 1 < (reflowLine cols line).length →
        ((reflowLine cols line).getD i []).length = cols - 1)
    ∧ (line = [] → reflowLine cols line = [[]])
    ∧ ((∀ c ∈ line, c.chWidth ≤ 1) →
        ∀ chunk ∈ reflowLine cols line, lineWidth chunk ≤ cols - 1) := by
  have hk : cols - 2 + 1 = cols - 1 := by omega
  by_cases hl : line.length < 1
  · have hnil : line = [] := by cases line <;> simp_all
    subst hnil
    refine ⟨rfl, ?_, ?_, fun _ => rfl, ?_⟩
    · intro chunk hc
      simp [reflowLine] at hc
      simp [hc]
    · intro i hi
      simp [reflowLine] at hi
    · intro _ chunk hc
      simp [reflowLine] at hc
      simp [hc, lineWidth]
  · have hrw : reflowLine cols line = reflowGo (cols - 2) line.length line := by
      simp [reflowLine, hl]
    have hchunk : ∀ chunk ∈ reflowLine cols line, chunk.length ≤ cols - 1 := by
      intro chunk hc
      rw [hrw] at hc
      have := reflowGo_chunk_length (cols - 2) line.length line chunk hc
      omega
    refine ⟨?_, hchunk, ?_, ?_, ?_⟩
    · rw [hrw]
      exact reflowGo_flatten _ _ _ le_rfl
    · intro i hi
      rw [hrw] at hi ⊢
      rw [reflowGo_nonfinal (cols - 2) line.length line le_rfl i hi]
      omega
    · intro hnil
      subst hnil
      simp at hl
    · intro hw chunk hc
      have hsub : chunk.Sublist line := by
        rw [hrw] at hc
        exact reflowGo_sublist _ _ _ chunk hc
      have : lineWidth chunk ≤ chunk.length :=
        lineWidth_le_length chunk (fun c hcm => hw c (hsub.mem hcm))
      have := hchunk chunk hc
      omega

/-- Claim C3 witness: the amended reflow property at columns 4 and the
five-character line "aaaaa". -/
theorem c3_witness :
    ((reflowLine 4 (line8.take 5)).flatten = line8.take 5)
    ∧ (∀ chunk ∈ reflowLine 4 (line8.take 5), chunk.length ≤ 4 - 1)
    ∧ (∀ i, i + 1 < (reflowLine 4 (line8.take 5)).length →
        ((reflowLine 4 (line8.take 5)).getD i []).length = 4 - 1)
    ∧ (line8.take 5 = [] → reflowLine 4 (line8.take 5) = [[]])
    ∧ ((∀ c ∈ line8.take 5, c.chWidth ≤ 1) →
        ∀ chunk ∈ reflowLine 4 (line8.take 5), lineWidth chunk ≤ 4 - 1) :=
  c3_reflow_correct 4 (line8.take 5) (by decide)

theorem reflowAll_assoc_flatten (cols : Nat) :
    ∀ (lines : List (List RpChar)) (acc : Nat),
      ((reflowAll cols lines acc).2).flatten
        = List.range' acc ((reflowAll cols lines acc).1).length := by
  intro lines
  induction lines with
  | nil => intro acc; rfl
  | cons l rest ih =>
    intro acc
    simp only [reflowAll, List.flatten_cons, List.length_append]
    rw [ih (acc + (reflowLine cols l).length), List.range'_append_1]
    rw [Nat.add_comm ((reflowAll cols rest (acc + (reflowLine cols l).length)).1.length)]

/-- Claim C4: after a reflow, concatenating the association index lists in
logical order yields exactly `0, 1, …, reflowed_lines.len() − 1`, with no
duplicates and no gaps. -/
theorem c4_association_bijection (cols : Nat) (lines : List (List RpChar))
    (h : 2 ≤ cols) :
    ((reflowAll cols lines 0).2).flatten
      = List.range ((reflowAll cols lines 0).1).length := by
  rw [List.range_eq_range']
  exact reflowAll_assoc_flatten cols lines 0

/-- Claim C4 witness: the association bijection on the spec's scenario
(lines "abc", "abcabc", "" at terminal width 4). -/
theorem c4_witness :
    ((reflowAll 4 demoLines 0).2).flatten
      = List.range ((reflowAll 4 demoLines 0).1).length :=
  c4_association_bijection 4 demoLines (by decide)

theorem removeFromBehind_eq_foldr (ps idxs : List Nat) :
    removeFromBehind ps idxs = idxs.foldr (fun i l => l.eraseIdx i) ps := by
  unfold removeFromBehind
  rw [List.foldl_reverse]

theorem markRemovals_enumFrom_succ (k : Nat) :
    ∀ (l : List Nat) (n : Nat) (st : Option Nat),
      markRemovals k st (List.enumFrom (n + 1) l)
        = (markRemovals k st (List.enumFrom n l)).map (fun i => i + 1) := by
  intro l
  induction l with
  | nil => intro n st; cases st <;> rfl
  | cons s t ih =>
    intro n st
    cases st with
    | none =>
      simp only [List.enumFrom_cons, markRemovals]
      exact ih (n + 1) (some s)
    | some p =>
      simp only [List.enumFrom_cons, markRemovals]
      by_cases h : p + k > s
      · rw [if_pos h, if_pos h, ih (n + 1) (some p), List.map_cons]
      · rw [if_neg h, if_neg h, ih (n + 1) (some s)]

theorem removeFromBehind_cons_map (a : Nat) (l : List Nat) (idxs : List Nat) :
    removeFromBehind (a :: l) (idxs.map (fun i => i + 1))
      = a :: removeFromBehind l idxs := by
  rw [removeFromBehind_eq_foldr, removeFromBehind_eq_foldr]
  induction idxs with
  | nil => rfl
  | cons i is ih =>
    simp only [List.map_cons, List.foldr_cons, ih, List.eraseIdx_cons_succ]

theorem removeMark_eq_dedupKeep (k : Nat) :
    ∀ (t : List Nat) (p : Nat),
      removeFromBehind t (markRemovals k (some p) t.enum) = dedupKeep k p t := by
  intro t
  induction t with
  | nil => intro p; rfl
  | cons s rest ih =>
    intro p
    rw [List.enum_cons]
    simp only [markRemovals]
    have hm : ∀ q, markRemovals k (some q) (List.enumFrom 1 rest)
        = (markRemovals k (some q) rest.enum).map (fun i => i + 1) := by
      intro q
      have := markRemovals_enumFrom_succ k rest 0 (some q)
      simpa [List.enum_eq_enumFrom] using this
    by_cases h : p + k > s
    · rw [if_pos h, hm p, removeFromBehind_eq_foldr, List.foldr_cons,
        ← removeFromBehind_eq_foldr, removeFromBehind_cons_map,
        List.eraseIdx_cons_zero, ih p]
      simp only [dedupKeep]
      rw [if_pos h]
    · rw [if_neg h, hm s, removeFromBehind_cons_map, ih s]
      simp only [dedupKeep]
      rw [if_neg h]

theorem dedupMatches_nil (k : Nat) : dedupMatches k [] = [] := rfl

theorem dedupMatches_cons (k s : Nat) (t : List Nat) :
    dedupMatches k (s :: t) = s :: dedupKeep k s t := by
  unfold dedupMatches
  rw [List.enum_cons]
  simp only [markRemovals]
  have hm : markRemovals k (some s) (List.enumFrom 1 t)
      = (markRemovals k (some s) t.enum).map (fun i => i + 1) := by
    have := markRemovals_enumFrom_succ k t 0 (some s)
    simpa [List.enum_eq_enumFrom] using this
  rw [hm, removeFromBehind_cons_map, removeMark_eq_dedupKeep]

theorem chain_dedupKeep (k : Nat) :
    ∀ (t : List Nat) (p : Nat),
      List.Chain (fun a b => a + k ≤ b) p (dedupKeep k p t) := by
  intro t
  induction t with
  | nil => intro p; exact List.Chain.nil
  | cons s rest ih =>
    intro p
    unfold dedupKeep
    by_cases h : p + k > s
    · rw [if_pos h]; exact ih p
    · rw [if_neg h]
      exact List.Chain.cons (by omega) (ih s)

/-- Claim C5: for every line and non-empty needle, consecutive accepted match
starts after the overlap-dedup pass are at least the needle's character
length apart, and the dedup keeps the first match of an overlapping run: the
needle "aa" over the line "aaaa" yields exactly the starts 0 and 2. -/
theorem c5_search_no_overlap (needle : List Char) (line : List RpChar)
    (h : needle ≠ []) :
    List.Chain' (fun s1 s2 => s1 + needle.length ≤ s2)
      (dedupMatches needle.length (rawMatches needle line))
    ∧ dedupMatches 2 (rawMatches ['a', 'a'] (List.replicate 4 (mkPlain 'a'))) = [0, 2] := by
  constructor
  · cases hr : rawMatches needle line with
    | nil => rw [dedupMatches_nil]; exact trivial
    | cons s t =>
      rw [dedupMatches_cons]
      exact chain_dedupKeep needle.length t s
  · decide

/-- Claim C5 witness: the non-overlap chain at needle "aa" over "aaaa". -/
theorem c5_witness :
    List.Chain' (fun s1 s2 => s1 + (['a', 'a'] : List Char).length ≤ s2)
      (dedupMatches (['a', 'a'] : List Char).length
        (rawMatches ['a', 'a'] (List.replicate 4 (mkPlain 'a'))))
    ∧ dedupMatches 2 (rawMatches ['a', 'a'] (List.replicate 4 (mkPlain 'a'))) = [0, 2] :=
  c5_search_no_overlap ['a', 'a'] (List.replicate 4 (mkPlain 'a')) (by decide)

/-- Claim C1 (code bug): `push_line` never sets `need_reflow`, so after one
update tick has consumed the initial reflow flag, pushing a line and running
the next update leaves `reflowed_lines` stale — it no longer equals the
reflow of the buffered lines at the current width, contradicting the claim
(and §2/§3 of the spec). -/
theorem c1_push_not_reflowed :
    ((initCtx 4 2).update.bind (fun p => (p.1.pushLine lineA).update)).map
      (fun p => (p.1.need_reflow,
        decide (p.1.reflowed_lines
          = (reflowAll p.1.size_ctx.terminal_column p.1.lines 0).1)))
    = some (false, false) := by decide

/-- Claim C2 counterexample: a state with a committed one-match search; an
empty-needle `search` leaves `reflowed_search_positions` untouched instead of
clearing it, so the per-reflowed-line match state survives. -/
theorem c2_cex_reflowed_not_cleared :
    (exSearchState.search []).map (fun t => t.reflowed_search_positions)
      = some [[0]] := by decide

/-- Claim C2 (amended): an empty needle clears the per-logical-line search
positions and resets the stored needle length to zero, and requests a redraw
exactly when logical positions existed; the per-reflowed-line positions are
left unchanged. -/
theorem c2_empty_needle (s : UiContext) :
    s.search [] = some { s with
      search_positions := []
      search_char_len := 0
      need_redraw := s.need_redraw || !s.search_positions.isEmpty } := by
  cases s with
  | mk lines rl rla sp rsp scl scroll sz pw nrd nrf po ps pr =>
    cases sp <;> cases nrd <;> simp [UiContext.search]

/-- Claim C8 counterexample: in the compiled dispatch table, Ctrl-d does not
map to scroll-half-page-down. -/
theorem c8_cex_ctrl_d :
    ¬ defaultKeymap ⟨.char 'd', mControl⟩
        = some (KeyBehavior.down ScrollSize.halfPage) := by decide

/-- Claim C8 (amended): the `CONTROL + 'd'` half-page-down insert is
overwritten by the later `CONTROL + 'd'` quit insert, so Ctrl-d quits, while
plain 'd' scrolls half a page down. -/
theorem c8_ctrl_d_quit :
    defaultKeymap ⟨.char 'd', mControl⟩ = some KeyBehavior.quit
    ∧ defaultKeymap ⟨.char 'd', mNone⟩ = some (KeyBehavior.down ScrollSize.halfPage) := by
  decide

theorem gotoScroll_scroll (s : UiContext) (idx : Nat) :
    (s.gotoScroll idx).scroll = min idx s.maxScroll := by
  by_cases h : min idx s.maxScroll ≠ s.scroll
  · simp [UiContext.gotoScroll, h]
  · push_neg at h
    simp [UiContext.gotoScroll, h]

theorem gotoScroll_maxScroll (s : UiContext) (idx : Nat) :
    (s.gotoScroll idx).maxScroll = s.maxScroll := by
  simp only [UiContext.gotoScroll]
  split <;> rfl

theorem scrollDown_maxScroll (s : UiContext) (idx : Nat) :
    (s.scrollDown idx).maxScroll = s.maxScroll :=
  gotoScroll_maxScroll s _

theorem scrollDown_one_scroll (s : UiContext) (h : s.maxScroll < USIZE_MAX) :
    (s.scrollDown 1).scroll = min (s.scroll + 1) s.maxScroll := by
  unfold UiContext.scrollDown
  rw [gotoScroll_scroll]
  have hU : satAdd s.scroll 1 = min (s.scroll + 1) USIZE_MAX := rfl
  rw [hU]
  simp only [USIZE_MAX] at h ⊢
  omega

theorem scrollDown_converge (n : Nat) :
    ∀ (s : UiContext), s.maxScroll < USIZE_MAX → s.maxScroll ≤ s.scroll + n → 1 ≤ n →
      ((fun st => UiContext.scrollDown st 1)^[n] s).scroll = s.maxScroll := by
  induction n with
  | zero => intro s _ _ h1; omega
  | succ m ih =>
    intro s hmax hb _
    simp only [Function.iterate_succ_apply]
    by_cases hm : 1 ≤ m
    · have e1 : (UiContext.scrollDown s 1).maxScroll = s.maxScroll := scrollDown_maxScroll s 1
      have e2 := scrollDown_one_scroll s hmax
      have step := ih (UiContext.scrollDown s 1) (by rw [e1]; exact hmax)
        (by rw [e1, e2]; omega) hm
      rw [step, e1]
    · have hm0 : m = 0 := by omega
      subst hm0
      rw [Function.iterate_zero_apply]
      rw [scrollDown_one_scroll s hmax]
      omega

/-- Claim C6: `goto_scroll` always lands inside `[0, max_scroll]` (its result
is the clamp `min x max_scroll`), and `n` repeated one-row `scroll_down`
calls reach exactly `max_scroll` once `n` covers the remaining distance —
never beyond. -/
theorem c6_scroll_clamp (s : UiContext) (x n : Nat)
    (hmax : s.maxScroll < USIZE_MAX) (hn : s.maxScroll ≤ s.scroll + n)
    (h1 : 1 ≤ n) :
    (s.gotoScroll x).scroll ≤ s.maxScroll
    ∧ ((fun st => UiContext.scrollDown st 1)^[n] s).scroll = s.maxScroll :=
  ⟨by rw [gotoScroll_scroll]; omega, scrollDown_converge n s hmax hn h1⟩

/-- Claim C6 witness: the clamp and the convergence on a state with two
reflowed rows and `max_scroll = 1`. -/
theorem c6_witness :
    (exScrollState.gotoScroll 5).scroll ≤ exScrollState.maxScroll
    ∧ ((fun st => UiContext.scrollDown st 1)^[2] exScrollState).scroll
        = exScrollState.maxScroll :=
  c6_scroll_clamp exScrollState 5 2 (by decide) (by decide) (by decide)

theorem writeAttr_current (w : ChWriter) (c : RpChar) :
    ((w.writeAttr c).1).current_attribute = c.attr := by
  unfold ChWriter.writeAttr
  split
  · rfl
  · next h => exact not_not.mp h

theorem writeFg_attr (w : ChWriter) (c : RpChar) :
    ((w.writeFg c).1).current_attribute = w.current_attribute := by
  unfold ChWriter.writeFg
  split <;> rfl

theorem writeBg_attr (w : ChWriter) (c : RpChar) :
    ((w.writeBg c).1).current_attribute = w.current_attribute := by
  unfold ChWriter.writeBg
  split <;> rfl

theorem advance_attr (w : ChWriter) (c : RpChar) :
    ((w.advance c).1).current_attribute = w.current_attribute := by
  simp only [ChWriter.advance]
  split <;> rfl

theorem writeFg_color (w : ChWriter) (c : RpChar) :
    ((w.writeFg c).1).current_color = c.foreground := by
  unfold ChWriter.writeFg
  split
  · rfl
  · next h => exact (not_not.mp h).symm

theorem writeBg_color (w : ChWriter) (c : RpChar) :
    ((w.writeBg c).1).current_color = w.current_color := by
  unfold ChWriter.writeBg
  split <;> rfl

theorem advance_color (w : ChWriter) (c : RpChar) :
    ((w.advance c).1).current_color = w.current_color := by
  simp only [ChWriter.advance]
  split <;> rfl

theorem writeBg_bg (w : ChWriter) (c : RpChar) :
    ((w.writeBg c).1).current_bgcolor = c.background := by
  unfold ChWriter.writeBg
  split
  · rfl
  · next h => exact (not_not.mp h).symm

theorem advance_bg (w : ChWriter) (c : RpChar) :
    ((w.advance c).1).current_bgcolor = w.current_bgcolor := by
  simp only [ChWriter.advance]
  split <;> rfl

theorem write_tracked (w : ChWriter) (c : RpChar) :
    ((w.write c).1).current_attribute = c.attr
    ∧ ((w.write c).1).current_color = c.foreground
    ∧ ((w.write c).1).current_bgcolor = c.background := by
  simp only [ChWriter.write]
  exact ⟨by rw [advance_attr, writeBg_attr, writeFg_attr, writeAttr_current],
    by rw [advance_color, writeBg_color, writeFg_color],
    by rw [advance_bg, writeBg_bg]⟩

theorem styleCount_append (a b : List OutItem) :
    styleCount (a ++ b) = styleCount a + styleCount b := by
  simp [styleCount, List.filter_append]

theorem styleCount_advance (w : ChWriter) (c : RpChar) :
    styleCount (w.advance c).2 = 0 := by
  simp only [ChWriter.advance]
  split <;> rfl

theorem styleCount_writeAttr_le (w : ChWriter) (c : RpChar) :
    styleCount (w.writeAttr c).2 ≤ 1 := by
  unfold ChWriter.writeAttr
  split <;> simp [styleCount]

theorem styleCount_writeFg_le (w : ChWriter) (c : RpChar) :
    styleCount (w.writeFg c).2 ≤ 1 := by
  unfold ChWriter.writeFg
  split <;> simp [styleCount]

theorem styleCount_writeBg_le (w : ChWriter) (c : RpChar) :
    styleCount (w.writeBg c).2 ≤ 1 := by
  unfold ChWriter.writeBg
  split <;> simp [styleCount]

theorem styleCount_write_le (w : ChWriter) (c : RpChar) :
    styleCount (w.write c).2 ≤ 3 := by
  simp only [ChWriter.write]
  rw [styleCount_append, styleCount_append, styleCount_append, styleCount_append,
    styleCount_advance]
  have h1 := styleCount_writeAttr_le w c
  have h2 := styleCount_writeFg_le (w.writeAttr c).1 c
  have h3 := styleCount_writeBg_le ((w.writeAttr c).1.writeFg c).1 c
  have h4 : styleCount [OutItem.glyph c.ch] = 0 := rfl
  omega

theorem writeAttr_same (w : ChWriter) (c : RpChar)
    (h : w.current_attribute = c.attr) : w.writeAttr c = (w, []) := by
  unfold ChWriter.writeAttr
  rw [if_neg (by simp [h])]

theorem writeFg_same (w : ChWriter) (c : RpChar)
    (h : w.current_color = c.foreground) : w.writeFg c = (w, []) := by
  unfold ChWriter.writeFg
  rw [if_neg (by simp [h])]

theorem writeBg_same (w : ChWriter) (c : RpChar)
    (h : w.current_bgcolor = c.background) : w.writeBg c = (w, []) := by
  unfold ChWriter.writeBg
  rw [if_neg (by simp [h])]

theorem write_same_style (w : ChWriter) (c : RpChar)
    (ha : w.current_attribute = c.attr) (hf : w.current_color = c.foreground)
    (hb : w.current_bgcolor = c.background) :
    styleCount (w.write c).2 = 0
    ∧ ((w.write c).1).current_attribute = w.current_attribute
    ∧ ((w.write c).1).current_color = w.current_color
    ∧ ((w.write c).1).current_bgcolor = w.current_bgcolor := by
  have h1 := write_tracked w c
  refine ⟨?_, by rw [h1.1, ha], by rw [h1.2.1, hf], by rw [h1.2.2, hb]⟩
  have e1 := writeAttr_same w c ha
  have e2 := writeFg_same w c hf
  have e3 := writeBg_same w c hb
  simp only [ChWriter.write, e1, e2, e3, styleCount_append, styleCount_advance]
  rfl

theorem writeSlice_same_style (c : RpChar) :
    ∀ (cs : List RpChar) (w : ChWriter),
      w.current_attribute = c.attr → w.current_color = c.foreground →
      w.current_bgcolor = c.background →
      (∀ x ∈ cs, x.attr = c.attr ∧ x.foreground = c.foreground
        ∧ x.background = c.background) →
      styleCount (w.writeSlice cs).2 = 0 := by
  intro cs
  induction cs with
  | nil => intro w _ _ _ _; rfl
  | cons x t ih =>
    intro w ha hf hb hall
    obtain ⟨hxa, hxf, hxb⟩ := hall x (by simp)
    have hsame := write_same_style w x (by rw [ha, hxa]) (by rw [hf, hxf])
      (by rw [hb, hxb])
    have ih' := ih (w.write x).1
      (by rw [hsame.2.1, ha]) (by rw [hsame.2.2.1, hf]) (by rw [hsame.2.2.2, hb])
      (fun y hy => hall y (by simp [hy]))
    simp only [ChWriter.writeSlice, styleCount_append, hsame.1, ih']

/-- Claim C7 counterexample: a run of two identically-styled characters whose
style equals a fresh writer's tracked state emits zero style/colour escapes,
not exactly one. -/
theorem c7_cex_zero_escapes :
    styleCount ((ChWriter.new 80).writeSlice [mkPlain 'a', mkPlain 'a']).2 ≠ 1 := by
  decide

/-- Claim C7 (amended): over a consecutive run of characters with identical
attributes and colours, every style/colour escape comes from the first
character alone — the rest of the run emits none — and the first character
emits at most one escape per category (attributes, foreground, background),
hence at most three in total and none that the tracked state already
matches. -/
theorem c7_attribute_diffing (w : ChWriter) (c : RpChar) (cs : List RpChar)
    (h : ∀ x ∈ cs, x.attr = c.attr ∧ x.foreground = c.foreground
      ∧ x.background = c.background) :
    styleCount (w.writeSlice (c :: cs)).2 = styleCount (w.write c).2
    ∧ styleCount (w.write c).2 ≤ 3 := by
  refine ⟨?_, styleCount_write_le w c⟩
  have ht := write_tracked w c
  have h0 := writeSlice_same_style c cs (w.write c).1 ht.1 ht.2.1 ht.2.2 h
  simp only [ChWriter.writeSlice, styleCount_append, h0]
  omega

/-- Claim C7 witness: the amended diffing property for a one-character tail
with the first character's style. -/
theorem c7_witness :
    styleCount ((ChWriter.new 80).writeSlice (mkPlain 'b' :: [mkPlain 'b'])).2
        = styleCount ((ChWriter.new 80).write (mkPlain 'b')).2
    ∧ styleCount ((ChWriter.new 80).write (mkPlain 'b')).2 ≤ 3 :=
  c7_attribute_diffing (ChWriter.new 80) (mkPlain 'b') [mkPlain 'b'] (by decide)

/-- Claim C9: `move_search` is total exactly under the precondition
`scroll ≤ reflowed_search_positions.len()`; the reachable state `c9state`
(three lines, one update, one scroll-down, no search ever committed) violates
it, so dispatching the SearchNext key there faults on the out-of-range slice
`reflowed_search_positions[scroll..]`. -/
theorem c9_move_search_partiality (s : UiContext) (fwd : Bool)
    (h : s.scroll ≤ s.reflowed_search_positions.length) :
    (s.moveSearch fwd).isSome = true
    ∧ c9state.isSome = true
    ∧ c9state.bind (fun t => t.handleEvent (Event.key ⟨.char 'n', mNone⟩)) = none := by
  refine ⟨?_, by decide, by decide⟩
  simp [UiContext.moveSearch, h]

/-- Claim C9 witness: totality of `move_search` at a fresh state (where the
precondition holds), alongside the concrete fault. -/
theorem c9_witness :
    ((initCtx 3 2).moveSearch true).isSome = true
    ∧ c9state.isSome = true
    ∧ c9state.bind (fun t => t.handleEvent (Event.key ⟨.char 'n', mNone⟩)) = none :=
  c9_move_search_partiality (initCtx 3 2) true (by decide)

theorem realSizeGo_fst_le (column : Nat) :
    ∀ (l : List (List RpChar)) (real left : Nat),
      (realSizeGo column real left l).1 ≤ real + l.length := by
  intro l
  induction l with
  | nil => intro real left; simp [realSizeGo]
  | cons a t ih =>
    intro real left
    simp only [realSizeGo, List.length_cons]
    split
    · have := ih (real + 1) (left - lineLineSize a column)
      omega
    · simp only []
      omega

theorem calculateRealSize_fst_le (ctx : SizeContext) (ls : List (List RpChar)) :
    (ctx.calculateRealSize ls).1 ≤ ls.length := by
  have := realSizeGo_fst_le ctx.terminal_column ls.reverse 0 ctx.terminal_line
  simpa [SizeContext.calculateRealSize] using this

/-- Claim C10: the redraw path is total when no reflow is pending, the scroll
is within the reflowed array and no search state is held — but the reachable
state `c10state` (width-2 terminal, an 8-character line reflowed to 8 rows,
scrolled to the end, then resized to width 9) reflows down to one row without
re-clamping `scroll`, so the following update faults on the out-of-range
slice `reflowed_lines[scroll..]`. -/
theorem c10_redraw_partiality (s : UiContext)
    (h1 : s.need_reflow = false) (h2 : s.scroll ≤ s.reflowed_lines.length)
    (h3 : s.reflowed_search_positions = []) :
    s.update.isSome = true
    ∧ c10state.isSome = true
    ∧ c10state.bind (fun t => t.update) = none := by
  refine ⟨?_, by decide, by decide⟩
  have hreal := calculateRealSize_fst_le s.size_ctx (s.reflowed_lines.drop s.scroll)
  rw [List.length_drop] at hreal
  have hstop : s.scroll
      + (s.size_ctx.calculateRealSize (s.reflowed_lines.drop s.scroll)).1
      ≤ s.reflowed_lines.length := by omega
  unfold UiContext.update
  by_cases hr : s.need_redraw = true
  · simp [h1, hr, h2, hstop, h3]
  · by_cases hp : s.prompt_outdated = true <;> simp [h1, hr, hp]

/-- Claim C10 witness: totality of the redraw path at a consistent state
(fresh state with the initial reflow consumed), alongside the concrete
fault. -/
theorem c10_witness :
    exRedrawState.update.isSome = true
    ∧ c10state.isSome = true
    ∧ c10state.bind (fun t => t.update) = none :=
  c10_redraw_partiality exRedrawState (by decide) (by decide) (by decide)


